import Mathlib

/-!
Shallow embedding of the `classicbattleship` repository (Python) in Lean 4,
together with theorems checking the natural-language specification against
the code.  Cells are pairs of integers `(row, col)`; Python `set`s of cells
are embedded as `Finset (ℤ × ℤ)`; functions that raise exceptions are
embedded as `Option`/`Except`-valued functions.
-/

namespace Battleship

abbrev Cell := ℤ × ℤ

/-- Constant `BOARD_SIZE = 10` from `src/utils.py`. -/
def BOARD_SIZE : ℤ := 10

/-- Constant `SHIP_SIZES = [4, 3, 3, 2, 2, 2, 1, 1, 1, 1]` from `src/utils.py`. -/
def SHIP_SIZES : List ℕ := [4, 3, 3, 2, 2, 2, 1, 1, 1, 1]

/-- The inclusive integer range `a, a+1, ..., b` (empty when `b < a`),
embedding Python's `range(min, max + 1)` iteration. -/
def intRange (a b : ℤ) : List ℤ := (List.range (b - a + 1).toNat).map fun i => a + i

/-- Function `get_ship_cells` from `src/utils.py`: cells of a straight ship from
`start` to `end`; the horizontal branch is taken when rows agree, the
vertical one when columns agree; otherwise the Python code raises
`ValueError`, embedded as `none`. -/
def getShipCells (s e : Cell) : Option (List Cell) :=
  if s.1 = e.1 then
    some ((intRange (min s.2 e.2) (max s.2 e.2)).map fun c => (s.1, c))
  else if s.2 = e.2 then
    some ((intRange (min s.1 e.1) (max s.1 e.1)).map fun r => (r, s.2))
  else none

/-- The cell list of a ship given as a `(start, end)` pair, defaulting to `[]`
in the non-straight case (which `GameBoard.init` rules out). -/
def shipCellsD (p : Cell × Cell) : List Cell := (getShipCells p.1 p.2).getD []

/-- Test `0 <= r < BOARD_SIZE and 0 <= c < BOARD_SIZE`. -/
def inBounds (c : Cell) : Bool :=
  decide (0 ≤ c.1 ∧ c.1 < BOARD_SIZE ∧ 0 ≤ c.2 ∧ c.2 < BOARD_SIZE)

/-- The eight offsets `(dr, dc)` with `dr, dc ∈ {-1, 0, 1}`, `(dr, dc) ≠ (0, 0)`,
iterated by `get_adjacent_cells` in `src/utils.py`. -/
def neighborOffsets : List (ℤ × ℤ) :=
  [(-1, -1), (-1, 0), (-1, 1), (0, -1), (0, 1), (1, -1), (1, 0), (1, 1)]

/-- Function `get_adjacent_cells` from `src/utils.py`: all in-bounds cells reachable
from a cell of the input by one of the eight offsets, excluding the input
cells themselves. -/
def getAdjacentCells (cells : List Cell) : Finset Cell :=
  cells.toFinset.biUnion fun c =>
    ((neighborOffsets.map fun d => (c.1 + d.1, c.2 + d.2)).toFinset).filter
      fun n => inBounds n = true ∧ n ∉ cells.toFinset

/-- The cell sets of the three board trackers plus the fleet, from
`GameBoard.__init__` in `src/gameplay.py`. -/
structure GameBoard where
  ships : List (Cell × Cell)
  ship_cells : Finset Cell
  hits : Finset Cell
  misses : Finset Cell
  destroyed_zones : Finset Cell
deriving DecidableEq

/-- Constructor `GameBoard.__init__` from `src/gameplay.py`: computes the union of
`get_ship_cells` over the fleet (propagating the `ValueError` of a
non-straight ship as `none`) and starts with empty hits, misses and
destroyed zones. -/
def GameBoard.init (ships : List (Cell × Cell)) : Option GameBoard :=
  match ships.mapM fun p => getShipCells p.1 p.2 with
  | none => none
  | some cellLists =>
    some { ships := ships, ship_cells := cellLists.flatten.toFinset,
           hits := ∅, misses := ∅, destroyed_zones := ∅ }

/-- The loop body of `GameBoard._check_destroyed_ships`: for each ship whose
full cell set is contained in `hits`, add its adjacency halo minus its own
cells to the destroyed zones.  `hits` is constant throughout the loop, as in
the Python method. -/
def checkDestroyedGo (hits : Finset Cell) : List (Cell × Cell) → Finset Cell → Finset Cell
  | [], zones => zones
  | p :: rest, zones =>
    checkDestroyedGo hits rest
      (if (shipCellsD p).toFinset ⊆ hits then
        zones ∪ (getAdjacentCells (shipCellsD p) \ (shipCellsD p).toFinset)
      else zones)

/-- Method `GameBoard._check_destroyed_ships` from `src/gameplay.py`. -/
def GameBoard.checkDestroyedShips (b : GameBoard) : GameBoard :=
  { b with destroyed_zones := checkDestroyedGo b.hits b.ships b.destroyed_zones }

/-- Method `GameBoard.record_shot` from `src/gameplay.py`.  The raised `ValueError`
on an already-shot cell is embedded as result `none` together with the
unchanged board (the Python method raises before any mutation). -/
def GameBoard.recordShot (b : GameBoard) (c : Cell) : Option Bool × GameBoard :=
  if c ∈ b.hits ∨ c ∈ b.misses ∨ c ∈ b.destroyed_zones then (none, b)
  else if c ∈ b.ship_cells then
    (some true, GameBoard.checkDestroyedShips { b with hits := insert c b.hits })
  else (some false, { b with misses := insert c b.misses })

/-- Method `GameBoard.has_ships_remaining` from `src/gameplay.py`. -/
def GameBoard.hasShipsRemaining (b : GameBoard) : Bool :=
  b.ships.any fun p => ! decide ((shipCellsD p).toFinset ⊆ b.hits)

/-- Boards reachable from a freshly constructed `GameBoard` by any sequence
of `record_shot` calls; a failing call leaves the board unchanged, so the
step constructor covers failing calls as well. -/
inductive Reachable : GameBoard → Prop where
  | init (ships : List (Cell × Cell)) (b : GameBoard) :
      GameBoard.init ships = some b → Reachable b
  | step (b : GameBoard) (c : Cell) : Reachable b → Reachable (b.recordShot c).2

/-- Folding a list of shots over a board via `record_shot` (failing shots
leave the board unchanged). -/
def shootSeq (b : GameBoard) (cs : List Cell) : GameBoard :=
  cs.foldl (fun b c => (b.recordShot c).2) b

/-- The error taxonomy of `validate_ship_placement` in `src/utils.py`
(each constructor corresponds to one `raise ValueError` site; the index is
the 0-based position of the offending ship). -/
inductive VError where
  | geometry (i : ℕ)
  | size (i : ℕ)
  | overlap (i : ℕ)
  | adjacency (i : ℕ)
  | count
  | sizeMismatch
deriving DecidableEq

/-- The per-ship loop of `validate_ship_placement` from `src/utils.py`:
size check, overlap check against the accumulated cells, adjacency check of
the new ship's halo against the accumulated cells, then accumulate. -/
def validateGo (allCells : Finset Cell) (i : ℕ) : List (Cell × Cell) → Except VError (Finset Cell)
  | [] => .ok allCells
  | p :: rest =>
    match getShipCells p.1 p.2 with
    | none => .error (.geometry i)
    | some cl =>
      let cells := cl.toFinset
      if cells.card ∉ SHIP_SIZES then .error (.size i)
      else if (allCells ∩ cells).Nonempty then .error (.overlap i)
      else if (allCells ∩ getAdjacentCells cl).Nonempty then .error (.adjacency i)
      else validateGo (allCells ∪ cells) (i + 1) rest

/-- Function `validate_ship_placement` from `src/utils.py`: the per-ship loop, then,
when `final_check` holds, the fleet count check and the sorted-size
comparison. -/
def validateShipPlacement (ships : List (Cell × Cell)) (finalCheck : Bool) : Except VError Bool :=
  match validateGo ∅ 0 ships with
  | .error e => .error e
  | .ok _ =>
    if finalCheck then
      if ships.length ≠ SHIP_SIZES.length then .error .count
      else if (ships.map fun p => (shipCellsD p).length).insertionSort (· ≤ ·) ≠
          SHIP_SIZES.insertionSort (· ≤ ·) then .error .sizeMismatch
      else .ok true
    else .ok true

/-- Two cells are 8-directionally adjacent: distinct and within Chebyshev
distance 1 (the spec's notion of "touching, including diagonally"). -/
def cellAdjacent (a b : Cell) : Prop :=
  a ≠ b ∧ (a.1 - b.1).natAbs ≤ 1 ∧ (a.2 - b.2).natAbs ≤ 1

instance (a b : Cell) : Decidable (cellAdjacent a b) := by
  unfold cellAdjacent; infer_instance

/-! ## Coordinate codec (`parse_coordinates` / `format_coordinates`)

Strings are embedded as `List Char` (ASCII); Python's `str.strip`,
`str.upper` and `int(...)` are embedded below for the ASCII fragment. -/

/-- ASCII whitespace stripped by Python's `str.strip()`. -/
def pySpace (c : Char) : Bool :=
  c = ' ' ∨ c = '\t' ∨ c = '\n' ∨ c = '\r' ∨ c = '\x0b' ∨ c = '\x0c'

/-- Python's `str.strip()`: drop whitespace from both ends. -/
def stripList (l : List Char) : List Char :=
  ((l.dropWhile pySpace).reverse.dropWhile pySpace).reverse

/-- Python's `str.upper()` on an ASCII character. -/
def upperChar (c : Char) : Char :=
  if 'a' ≤ c ∧ c ≤ 'z' then Char.ofNat (c.toNat - 32) else c

def isDigitChar (c : Char) : Bool := '0' ≤ c ∧ c ≤ '9'

def digitVal (c : Char) : ℕ := c.toNat - 48

/-- Digit run of a Python integer literal after the optional sign: digits
with optional single underscores strictly between digits. -/
def pyDigitsGo (acc : ℕ) : List Char → Option ℕ
  | [] => some acc
  | '_' :: c :: rest =>
    if isDigitChar c then pyDigitsGo (acc * 10 + digitVal c) rest else none
  | c :: rest =>
    if isDigitChar c then pyDigitsGo (acc * 10 + digitVal c) rest else none

/-- A non-empty digit run must begin with a digit (never an underscore). -/
def pyDigits : List Char → Option ℕ
  | [] => none
  | c :: rest => if isDigitChar c then pyDigitsGo (digitVal c) rest else none

/-- Python's `int(s)` on an ASCII string: strip whitespace, optional sign,
then a digit run; `ValueError` is embedded as `none`. -/
def pyInt (l : List Char) : Option ℤ :=
  match stripList l with
  | '+' :: rest => (pyDigits rest).map Int.ofNat
  | '-' :: rest => (pyDigits rest).map fun n => -(n : ℤ)
  | rest => (pyDigits rest).map Int.ofNat

/-- Function `parse_coordinates` from `src/utils.py`: strip and uppercase, require
length at least 2, first character in `'A'..'J'`, integer suffix with
`1 ≤ n ≤ BOARD_SIZE`; every `raise ValueError` is embedded as `none`. -/
def parseCoordinates (l : List Char) : Option Cell :=
  let t := (stripList l).map upperChar
  if t.length < 2 then none
  else
    match t with
    | [] => none
    | rowChar :: colStr =>
      if rowChar < 'A' ∨ 'J' < rowChar then none
      else
        match pyInt colStr with
        | none => none
        | some n =>
          let col := n - 1
          if col < 0 ∨ BOARD_SIZE ≤ col then none
          else some (((rowChar.toNat : ℤ) - 65, col))

/-- Function `format_coordinates` from `src/utils.py`:
`chr(ord('A') + row)` followed by the decimal digits of `col + 1`. -/
def formatCoordinates (r c : ℤ) : List Char :=
  Char.ofNat (65 + r.toNat) :: Nat.toDigits 10 (c + 1).toNat

/-- A coordinate string in the form the spec calls valid: a letter `A..J`
(upper or lower case according to `upper`) followed by the canonical decimal
numeral of a number; row index `r`, 1-based column number `n`. -/
def mkCoord (upper : Bool) (r n : ℕ) : List Char :=
  (if upper then Char.ofNat (65 + r) else Char.ofNat (97 + r)) :: Nat.toDigits 10 n

/-! ## Move log (`GameState.log_move`) -/

/-- One row of the move log, from `GameState.log_move` in
`src/gameplay.py`. -/
structure MoveRecord where
  turn : ℕ
  player_move : String
  player_hit : String
  bot_move : String
  bot_hit : String
deriving DecidableEq

/-- Method `GameState.log_move` from `src/gameplay.py`: hit booleans are rendered
as the literal strings `"hit"` / `"miss"`. -/
def logMove (turn : ℕ) (playerCoord : String) (playerHit : Bool)
    (botCoord : String) (botHit : Bool) : MoveRecord :=
  { turn := turn
    player_move := playerCoord
    player_hit := if playerHit then "hit" else "miss"
    bot_move := botCoord
    bot_hit := if botHit then "hit" else "miss" }

/-- The final log entry appended when the player wins on their shot:
`play_game` (src/gameplay.py line 154) calls
`log_move(turn, player_move_str, player_hit, '', False)`. -/
def playerWinLogEntry (turn : ℕ) (playerCoord : String) (playerHit : Bool) : MoveRecord :=
  logMove turn playerCoord playerHit "" false

/-! ## Bot fleet generation (`generate_bot_ships`)

The global random source is embedded as an injected stream `rng : ℕ → ℕ`
consumed at an explicit counter: `random.choice([True, False])` reads one
value mod 2, `random.randint(0, m)` reads one value mod `m + 1`. -/

/-- One run of the inner `while not placed` loop of `generate_bot_ships`
(`src/bot_generation.py`): up to `fuel` ( = 100) placement attempts for one
ship of the given size; each attempt draws orientation, row and column, and
succeeds when the candidate neither overlaps the accumulated cells nor has
a halo meeting the accumulated halos.  Returns the placement (if any) and
the advanced stream counter. -/
def placeShip (rng : ℕ → ℕ) (size : ℕ) :
    ℕ → ℕ → Finset Cell → Finset Cell →
    Option ((Cell × Cell) × Finset Cell × Finset Cell) × ℕ
  | k, 0, _, _ => (none, k)
  | k, fuel + 1, allCells, allAdjacent =>
    let horizontal := rng k % 2 == 0
    let st : Cell × Cell :=
      if horizontal then
        let row : ℕ := rng (k + 1) % 10
        let col : ℕ := rng (k + 2) % (11 - size)
        (((row : ℤ), (col : ℤ)), ((row : ℤ), (col : ℤ) + (size : ℤ) - 1))
      else
        let row : ℕ := rng (k + 1) % (11 - size)
        let col : ℕ := rng (k + 2) % 10
        (((row : ℤ), (col : ℤ)), ((row : ℤ) + (size : ℤ) - 1, (col : ℤ)))
    match getShipCells st.1 st.2 with
    | none => (none, k + 3)
    | some cl =>
      let cells := cl.toFinset
      let adjacent := getAdjacentCells cl
      if ¬(allCells ∩ cells).Nonempty ∧ ¬(allAdjacent ∩ adjacent).Nonempty then
        (some (st, allCells ∪ cells, allAdjacent ∪ adjacent), k + 3)
      else placeShip rng size (k + 3) fuel allCells allAdjacent

/-- The `for ship_size in SHIP_SIZES` loop of `generate_bot_ships`: place
each required size in turn, abandoning the fleet attempt as soon as one
size exhausts its placement attempts. -/
def buildFleet (rng : ℕ → ℕ) :
    List ℕ → ℕ → List (Cell × Cell) → Finset Cell → Finset Cell →
    Option (List (Cell × Cell)) × ℕ
  | [], k, ships, _, _ => (some ships, k)
  | size :: rest, k, ships, allCells, allAdjacent =>
    match placeShip rng size k 100 allCells allAdjacent with
    | (some (s, ac, aa), k') => buildFleet rng rest k' (ships ++ [s]) ac aa
    | (none, k') => (none, k')

/-- Function `generate_bot_ships` from `src/bot_generation.py`: up to `fuel`
( = `max_attempts` = 1000) whole-fleet attempts; a completed fleet is
returned only if `validate_ship_placement(ships)` (with its default
`final_check=True`) succeeds, otherwise the attempt is abandoned.
Exhausting the budget (`RuntimeError` in Python) is embedded as `none`. -/
def generateBotShips (rng : ℕ → ℕ) : ℕ → ℕ → Option (List (Cell × Cell))
  | _, 0 => none
  | k, fuel + 1 =>
    match buildFleet rng SHIP_SIZES k [] ∅ ∅ with
    | (some ships, k') =>
      match validateShipPlacement ships true with
      | .ok _ => some ships
      | .error _ => generateBotShips rng k' fuel
    | (none, k') => generateBotShips rng k' fuel

instance : DecidableEq (Except VError Bool) := fun a b =>
  match a, b with
  | .ok x, .ok y => decidable_of_iff (x = y) (by simp)
  | .error x, .error y => decidable_of_iff (x = y) (by simp)
  | .ok _, .error _ => isFalse (by simp)
  | .error _, .ok _ => isFalse (by simp)

/-! ## Concrete boards and fleets used as test inputs -/

/-- A ten-ship fleet with the required size multiset in which the first
ship lies outside the board at column `-1` and touches the second ship at
`(0, 0)` diagonally-adjacent-free but side-adjacent; the remaining eight
ships are placed with clearance on rows 2, 4 and 6. -/
def badFleet : List (Cell × Cell) :=
  [((0, -1), (0, -1)), ((0, 0), (0, 0)), ((2, 0), (2, 3)), ((2, 5), (2, 7)),
   ((4, 0), (4, 2)), ((4, 4), (4, 5)), ((4, 7), (4, 8)), ((6, 0), (6, 1)),
   ((6, 3), (6, 3)), ((6, 5), (6, 5))]

/-- A ten-ship fleet with the required size multiset, all ships in bounds
and pairwise at Chebyshev distance at least 3. -/
def goodFleet : List (Cell × Cell) :=
  [((0, 0), (0, 3)), ((0, 6), (0, 8)), ((3, 0), (3, 2)), ((3, 5), (3, 6)),
   ((6, 0), (6, 1)), ((6, 4), (6, 5)), ((6, 8), (6, 8)), ((9, 0), (9, 0)),
   ((9, 3), (9, 3)), ((9, 6), (9, 6))]

/-- A deterministic random stream under which `generateBotShips` places
every ship of `goodFleet` on its first attempt. -/
def goodSeq : List ℕ :=
  [0, 0, 0, 0, 0, 6, 0, 3, 0, 0, 3, 5, 0, 6, 0, 0, 6, 4, 0, 6, 8, 0, 9, 0, 0, 9, 3, 0, 9, 6]

def goodRng (n : ℕ) : ℕ := goodSeq.getD n 0

/-- A fallback board value for `Option.getD`. -/
def emptyBoard : GameBoard :=
  { ships := [], ship_cells := ∅, hits := ∅, misses := ∅, destroyed_zones := ∅ }

/-- A freshly constructed board holding the single one-cell ship `A1-A1`. -/
def cexBoard0 : GameBoard :=
  (GameBoard.init [((0, 0), (0, 0))]).getD emptyBoard

/-- Board `cexBoard0` after a miss at `(0, 1)` (coordinate `A2`). -/
def cexBoard1 : GameBoard := (cexBoard0.recordShot (0, 1)).2

/-- Board `cexBoard1` after the hit at `(0, 0)` that destroys the only ship. -/
def cexBoard2 : GameBoard := (cexBoard1.recordShot (0, 0)).2

/-! ## Helper lemmas -/

theorem mem_getAdjacentCells {cl : List Cell} {n : Cell} :
    n ∈ getAdjacentCells cl ↔
      (∃ c ∈ cl, ∃ d ∈ neighborOffsets, n = (c.1 + d.1, c.2 + d.2)) ∧
        inBounds n = true ∧ n ∉ cl := by
  simp only [getAdjacentCells, Finset.mem_biUnion, Finset.mem_filter, List.mem_toFinset,
    List.mem_map]
  constructor
  · rintro ⟨c, hc, hmem, hb, hn⟩
    obtain ⟨d, hd, rfl⟩ := hmem
    exact ⟨⟨c, hc, d, hd, rfl⟩, hb, hn⟩
  · rintro ⟨⟨c, hc, d, hd, rfl⟩, hb, hn⟩
    exact ⟨c, hc, ⟨d, hd, rfl⟩, hb, hn⟩

theorem cellAdjacent_exists_offset {a b : Cell} (h : cellAdjacent a b) :
    ∃ d ∈ neighborOffsets, a = (b.1 + d.1, b.2 + d.2) := by
  obtain ⟨hne, h1, h2⟩ := h
  have hne' : ¬(a.1 = b.1 ∧ a.2 = b.2) := by
    rintro ⟨x, y⟩; exact hne (Prod.ext_iff.mpr ⟨x, y⟩)
  have hr : a.1 - b.1 = -1 ∨ a.1 - b.1 = 0 ∨ a.1 - b.1 = 1 := by omega
  have hc : a.2 - b.2 = -1 ∨ a.2 - b.2 = 0 ∨ a.2 - b.2 = 1 := by omega
  rcases hr with h | h | h <;> rcases hc with h' | h' | h' <;>
    first
      | exact absurd ⟨by omega, by omega⟩ hne'
      | exact ⟨(-1, -1), by simp [neighborOffsets], Prod.ext_iff.mpr ⟨by omega, by omega⟩⟩
      | exact ⟨(-1, 0), by simp [neighborOffsets], Prod.ext_iff.mpr ⟨by omega, by omega⟩⟩
      | exact ⟨(-1, 1), by simp [neighborOffsets], Prod.ext_iff.mpr ⟨by omega, by omega⟩⟩
      | exact ⟨(0, -1), by simp [neighborOffsets], Prod.ext_iff.mpr ⟨by omega, by omega⟩⟩
      | exact ⟨(0, 1), by simp [neighborOffsets], Prod.ext_iff.mpr ⟨by omega, by omega⟩⟩
      | exact ⟨(1, -1), by simp [neighborOffsets], Prod.ext_iff.mpr ⟨by omega, by omega⟩⟩
      | exact ⟨(1, 0), by simp [neighborOffsets], Prod.ext_iff.mpr ⟨by omega, by omega⟩⟩
      | exact ⟨(1, 1), by simp [neighborOffsets], Prod.ext_iff.mpr ⟨by omega, by omega⟩⟩

/-- A cell that is 8-adjacent to a cell of `cl`, lies in bounds and is not
itself in `cl`, belongs to the adjacency halo of `cl`. -/
theorem mem_getAdjacentCells_of_adjacent {cl : List Cell} {a b : Cell} (hb : b ∈ cl)
    (hadj : cellAdjacent a b) (hbound : inBounds a = true) (hnot : a ∉ cl) :
    a ∈ getAdjacentCells cl := by
  obtain ⟨d, hd, rfl⟩ := cellAdjacent_exists_offset hadj
  exact mem_getAdjacentCells.mpr ⟨⟨b, hb, d, hd, rfl⟩, hbound, hnot⟩

theorem checkDestroyedGo_mono (hits : Finset Cell) (l : List (Cell × Cell)) :
    ∀ zones : Finset Cell, zones ⊆ checkDestroyedGo hits l zones := by
  induction l with
  | nil => intro zones; simp [checkDestroyedGo]
  | cons p rest ih =>
    intro zones
    simp only [checkDestroyedGo]
    split
    · exact Finset.subset_union_left.trans (ih _)
    · exact ih _

theorem subset_checkDestroyedGo (hits : Finset Cell) {l : List (Cell × Cell)}
    {p : Cell × Cell} (hp : p ∈ l) (hfull : (shipCellsD p).toFinset ⊆ hits) :
    ∀ zones : Finset Cell,
      getAdjacentCells (shipCellsD p) \ (shipCellsD p).toFinset ⊆
        checkDestroyedGo hits l zones := by
  induction l with
  | nil => cases hp
  | cons q rest ih =>
    intro zones
    rcases List.mem_cons.mp hp with rfl | hp'
    · simp only [checkDestroyedGo, if_pos hfull]
      exact Finset.subset_union_right.trans (checkDestroyedGo_mono hits rest _)
    · exact ih hp' _

@[simp] theorem checkDestroyedShips_ships (b : GameBoard) :
    b.checkDestroyedShips.ships = b.ships := rfl

@[simp] theorem checkDestroyedShips_ship_cells (b : GameBoard) :
    b.checkDestroyedShips.ship_cells = b.ship_cells := rfl

@[simp] theorem checkDestroyedShips_hits (b : GameBoard) :
    b.checkDestroyedShips.hits = b.hits := rfl

@[simp] theorem checkDestroyedShips_misses (b : GameBoard) :
    b.checkDestroyedShips.misses = b.misses := rfl

@[simp] theorem recordShot_ships (b : GameBoard) (c : Cell) :
    (b.recordShot c).2.ships = b.ships := by
  unfold GameBoard.recordShot
  split <;> [rfl; split <;> rfl]

@[simp] theorem recordShot_ship_cells (b : GameBoard) (c : Cell) :
    (b.recordShot c).2.ship_cells = b.ship_cells := by
  unfold GameBoard.recordShot
  split <;> [rfl; split <;> rfl]

theorem hits_subset_recordShot (b : GameBoard) (c : Cell) :
    b.hits ⊆ (b.recordShot c).2.hits := by
  unfold GameBoard.recordShot
  split
  · exact Finset.Subset.refl _
  · split
    · exact Finset.subset_insert _ _
    · exact Finset.Subset.refl _

theorem misses_subset_recordShot (b : GameBoard) (c : Cell) :
    b.misses ⊆ (b.recordShot c).2.misses := by
  unfold GameBoard.recordShot
  split
  · exact Finset.Subset.refl _
  · split
    · exact Finset.Subset.refl _
    · exact Finset.subset_insert _ _

theorem zones_subset_recordShot (b : GameBoard) (c : Cell) :
    b.destroyed_zones ⊆ (b.recordShot c).2.destroyed_zones := by
  unfold GameBoard.recordShot
  split
  · exact Finset.Subset.refl _
  · split
    · exact checkDestroyedGo_mono _ _ _
    · exact Finset.Subset.refl _

/-- Membership in any of the three trackers is preserved by a further
`record_shot` call (successful or failing). -/
theorem shotSets_subset_recordShot (b : GameBoard) (c x : Cell)
    (hx : x ∈ b.hits ∨ x ∈ b.misses ∨ x ∈ b.destroyed_zones) :
    x ∈ (b.recordShot c).2.hits ∨ x ∈ (b.recordShot c).2.misses ∨
      x ∈ (b.recordShot c).2.destroyed_zones := by
  rcases hx with h | h | h
  · exact Or.inl (hits_subset_recordShot b c h)
  · exact Or.inr (Or.inl (misses_subset_recordShot b c h))
  · exact Or.inr (Or.inr (zones_subset_recordShot b c h))

theorem shotSets_subset_shootSeq (b : GameBoard) (cs : List Cell) (x : Cell)
    (hx : x ∈ b.hits ∨ x ∈ b.misses ∨ x ∈ b.destroyed_zones) :
    x ∈ (shootSeq b cs).hits ∨ x ∈ (shootSeq b cs).misses ∨
      x ∈ (shootSeq b cs).destroyed_zones := by
  induction cs generalizing b with
  | nil => exact hx
  | cons c rest ih =>
    exact ih ((b.recordShot c).2) (shotSets_subset_recordShot b c x hx)

/-- A `record_shot` on a cell already in one of the three trackers fails. -/
theorem recordShot_fails_of_mem (b : GameBoard) (c : Cell)
    (hc : c ∈ b.hits ∨ c ∈ b.misses ∨ c ∈ b.destroyed_zones) :
    (b.recordShot c).1 = none := by
  unfold GameBoard.recordShot
  rw [if_pos hc]

theorem init_fields {ships : List (Cell × Cell)} {b : GameBoard}
    (h : GameBoard.init ships = some b) :
    b.ships = ships ∧ b.hits = ∅ ∧ b.misses = ∅ ∧ b.destroyed_zones = ∅ := by
  unfold GameBoard.init at h
  cases hm : ships.mapM fun p => getShipCells p.1 p.2 with
  | none => rw [hm] at h; simp at h
  | some L =>
    rw [hm] at h
    simp only [Option.some.injEq] at h
    subst h
    exact ⟨rfl, rfl, rfl, rfl⟩

/-- The inductive invariant of `record_shot`: only ship cells are recorded
as hits, only non-ship cells as misses. -/
theorem reachable_inv {b : GameBoard} (h : Reachable b) :
    b.hits ⊆ b.ship_cells ∧ ∀ c ∈ b.misses, c ∉ b.ship_cells := by
  induction h with
  | init ships b hb =>
    obtain ⟨-, hh, hm, -⟩ := init_fields hb
    rw [hh, hm]
    exact ⟨Finset.empty_subset _, by simp⟩
  | step b c _ ih =>
    obtain ⟨ih1, ih2⟩ := ih
    unfold GameBoard.recordShot
    split
    · exact ⟨ih1, ih2⟩
    · split
      case isTrue hship =>
        refine ⟨?_, ?_⟩
        · simpa using Finset.insert_subset hship ih1
        · simpa using ih2
      case isFalse hship =>
        refine ⟨ih1, ?_⟩
        intro x hx
        rcases Finset.mem_insert.mp hx with rfl | hx'
        · exact hship
        · exact ih2 x hx'

/-- Hits and misses are disjoint on every reachable board. -/
theorem reachable_hits_inter_misses {b : GameBoard} (h : Reachable b) :
    b.hits ∩ b.misses = ∅ := by
  obtain ⟨h1, h2⟩ := reachable_inv h
  ext x
  simp only [Finset.mem_inter, Finset.not_mem_empty, iff_false, not_and]
  intro hx hm
  exact h2 x hm (h1 hx)

/-! ## Claim theorems -/

/-- C1, counterexample: on the board with the single ship `A1-A1`, a miss
at `(0, 1)` followed by the destroying hit at `(0, 0)` leaves `(0, 1)` in
`misses` and in `destroyed_zones` at once, so a reachable board can have a
cell in two of the three sets — the mutual-exclusion part of the claim is
false. -/
theorem claim_C1_counterexample :
    Reachable cexBoard2 ∧ (0, 1) ∈ cexBoard2.misses ∧ (0, 1) ∈ cexBoard2.destroyed_zones := by
  refine ⟨?_, by decide, by decide⟩
  exact Reachable.step cexBoard1 (0, 0)
    (Reachable.step cexBoard0 (0, 1)
      (Reachable.init [((0, 0), (0, 0))] cexBoard0 (by decide)))

/-- C1 (amended): on every board reachable from a freshly constructed board
by `record_shot` calls, every cell belongs to at most one of `hits` and
`misses` (a cell of `destroyed_zones` may also lie in one of the other two
sets), and a cell that is in any of the three sets can never be shot again:
after any further sequence of `record_shot` calls, a `record_shot` on it
still fails. -/
theorem claim_C1_amended {b : GameBoard} (h : Reachable b) :
    b.hits ∩ b.misses = ∅ ∧
      ∀ c, (c ∈ b.hits ∨ c ∈ b.misses ∨ c ∈ b.destroyed_zones) →
        ∀ cs : List Cell, ((shootSeq b cs).recordShot c).1 = none := by
  refine ⟨reachable_hits_inter_misses h, ?_⟩
  intro c hc cs
  exact recordShot_fails_of_mem _ _ (shotSets_subset_shootSeq b cs c hc)

/-- Witness for C1 (amended) at the concrete reachable board `cexBoard2`. -/
theorem claim_C1_amended_witness :
    cexBoard2.hits ∩ cexBoard2.misses = ∅ ∧
      ((shootSeq cexBoard2 [(2, 2)]).recordShot (0, 1)).1 = none := by
  have hreach : Reachable cexBoard2 :=
    Reachable.step cexBoard1 (0, 0)
      (Reachable.step cexBoard0 (0, 1)
        (Reachable.init [((0, 0), (0, 0))] cexBoard0 (by decide)))
  exact ⟨(claim_C1_amended hreach).1,
    (claim_C1_amended hreach).2 (0, 1) (by decide) [(2, 2)]⟩

/-- C2: immediately after a successful hit, any ship of the fleet whose full
cell set is now contained in `hits` has every in-bounds 8-directional
neighbor cell that belongs to no ship of the fleet present in
`destroyed_zones`. -/
theorem claim_C2 (b b' : GameBoard) (c : Cell)
    (hshot : b.recordShot c = (some true, b'))
    (s : Cell × Cell) (hs : s ∈ b.ships)
    (hfull : (shipCellsD s).toFinset ⊆ b'.hits)
    (n : Cell) (hbound : inBounds n = true)
    (hadj : ∃ a ∈ shipCellsD s, cellAdjacent n a)
    (hnoship : ∀ q ∈ b.ships, n ∉ shipCellsD q) :
    n ∈ b'.destroyed_zones := by
  unfold GameBoard.recordShot at hshot
  split at hshot
  · simp at hshot
  · split at hshot
    case isFalse => simp at hshot
    case isTrue h2 =>
      have hb' : b' = GameBoard.checkDestroyedShips { b with hits := insert c b.hits } := by
        have := congrArg Prod.snd hshot
        simpa using this.symm
      subst hb'
      obtain ⟨a, ha, hadj'⟩ := hadj
      have hnmem : n ∉ shipCellsD s := hnoship s hs
      have hhalo : n ∈ getAdjacentCells (shipCellsD s) :=
        mem_getAdjacentCells_of_adjacent ha hadj' hbound hnmem
      have hmem : n ∈ getAdjacentCells (shipCellsD s) \ (shipCellsD s).toFinset :=
        Finset.mem_sdiff.mpr ⟨hhalo, by simpa using hnmem⟩
      exact subset_checkDestroyedGo _ hs hfull _ hmem

/-- Witness for C2: destroying the single ship `A1-A1` puts its diagonal
neighbor `(1, 1)` into the destroyed zones. -/
theorem claim_C2_witness : (1, 1) ∈ cexBoard2.destroyed_zones :=
  claim_C2 cexBoard1 cexBoard2 (0, 0) (by decide) ((0, 0), (0, 0)) (by decide)
    (by decide) (1, 1) (by decide) ⟨(0, 0), by decide, by decide⟩ (by decide)

/-- C4: `record_shot` fails exactly when the target cell is already in
`hits`, `misses` or `destroyed_zones`, and a failing call leaves the board
completely unchanged. -/
theorem claim_C4 (b : GameBoard) (c : Cell) :
    ((b.recordShot c).1 = none ↔ (c ∈ b.hits ∨ c ∈ b.misses ∨ c ∈ b.destroyed_zones)) ∧
      ((b.recordShot c).1 = none → (b.recordShot c).2 = b) := by
  unfold GameBoard.recordShot
  split
  case isTrue h => simp [h]
  case isFalse h => split <;> simp [h]

/-- Witness for C4: repeating the miss at `(0, 1)` on `cexBoard1` fails and
leaves the board unchanged. -/
theorem claim_C4_witness :
    (cexBoard1.recordShot (0, 1)).1 = none ∧ (cexBoard1.recordShot (0, 1)).2 = cexBoard1 :=
  ⟨(claim_C4 cexBoard1 (0, 1)).1.mpr (by decide),
   (claim_C4 cexBoard1 (0, 1)).2 ((claim_C4 cexBoard1 (0, 1)).1.mpr (by decide))⟩

/-- C8: on every reachable board, `has_ships_remaining()` returns `False`
iff every ship's full cell set is contained in `hits`. -/
theorem claim_C8 {b : GameBoard} (h : Reachable b) :
    b.hasShipsRemaining = false ↔ ∀ p ∈ b.ships, (shipCellsD p).toFinset ⊆ b.hits := by
  unfold GameBoard.hasShipsRemaining
  rw [List.any_eq_false]
  simp

/-- Witness for C8 at the concrete reachable board `cexBoard2`, whose only
ship is fully hit. -/
theorem claim_C8_witness : cexBoard2.hasShipsRemaining = false := by
  have hreach : Reachable cexBoard2 :=
    Reachable.step cexBoard1 (0, 0)
      (Reachable.step cexBoard0 (0, 1)
        (Reachable.init [((0, 0), (0, 0))] cexBoard0 (by decide)))
  exact (claim_C8 hreach).mpr (by decide)

/-- C9: on every reachable board, `hits` only ever contains ship cells and
`misses` only ever contains non-ship cells. -/
theorem claim_C9 {b : GameBoard} (h : Reachable b) :
    b.hits ⊆ b.ship_cells ∧ b.misses ∩ b.ship_cells = ∅ := by
  obtain ⟨h1, h2⟩ := reachable_inv h
  refine ⟨h1, ?_⟩
  ext x
  simp only [Finset.mem_inter, Finset.not_mem_empty, iff_false, not_and]
  exact h2 x

/-- Witness for C9 at the concrete reachable board `cexBoard2`. -/
theorem claim_C9_witness :
    cexBoard2.hits ⊆ cexBoard2.ship_cells ∧ cexBoard2.misses ∩ cexBoard2.ship_cells = ∅ := by
  have hreach : Reachable cexBoard2 :=
    Reachable.step cexBoard1 (0, 0)
      (Reachable.step cexBoard0 (0, 1)
        (Reachable.init [((0, 0), (0, 0))] cexBoard0 (by decide)))
  exact claim_C9 hreach

/-- C5, counterexample: in the final entry appended when the player wins
(`log_move(turn, player_move_str, player_hit, '', False)`), the bot's hit
field is not blank — `log_move` renders the passed `False` as the string
`"miss"`. -/
theorem claim_C5_counterexample : (playerWinLogEntry 1 "A1" true).bot_hit ≠ "" := by decide

/-- C5 (amended): every `*_hit` field produced by `log_move` is one of the
literal strings `"hit"` and `"miss"`; in the final entry appended when the
player wins on their shot, the bot's move field is blank but the bot's hit
field is the literal string `"miss"` (the `False` passed for the absent bot
move is rendered like any other miss). -/
theorem claim_C5_amended :
    (∀ (t : ℕ) (pc : String) (ph : Bool) (bc : String) (bh : Bool),
      ((logMove t pc ph bc bh).player_hit = "hit" ∨ (logMove t pc ph bc bh).player_hit = "miss") ∧
        ((logMove t pc ph bc bh).bot_hit = "hit" ∨ (logMove t pc ph bc bh).bot_hit = "miss")) ∧
      ∀ (t : ℕ) (pc : String) (ph : Bool),
        (playerWinLogEntry t pc ph).bot_move = "" ∧ (playerWinLogEntry t pc ph).bot_hit = "miss" := by
  constructor
  · intro t pc ph bc bh
    constructor
    · cases ph <;> simp [logMove]
    · cases bh <;> simp [logMove]
  · intro t pc ph
    exact ⟨rfl, rfl⟩

/-- C6: `parse(format(c)) = c` for every valid cell, and for every valid
coordinate string (letter `A..J` in either case followed by the canonical
decimal numeral of a number `1..10`), `format(parse(s))` is the canonical
uppercase form of `s`. -/
theorem claim_C6 :
    (∀ r c : ℤ, 0 ≤ r → r < 10 → 0 ≤ c → c < 10 →
      parseCoordinates (formatCoordinates r c) = some (r, c)) ∧
      ∀ (u : Bool) (r n : ℕ), r < 10 → 1 ≤ n → n ≤ 10 →
        ∃ cell : Cell, parseCoordinates (mkCoord u r n) = some cell ∧
          formatCoordinates cell.1 cell.2 = (mkCoord u r n).map upperChar := by
  constructor
  · have key : ∀ r ∈ Finset.Icc (0 : ℤ) 9, ∀ c ∈ Finset.Icc (0 : ℤ) 9,
        parseCoordinates (formatCoordinates r c) = some (r, c) := by decide
    intro r c h1 h2 h3 h4
    exact key r (Finset.mem_Icc.mpr ⟨h1, by omega⟩) c (Finset.mem_Icc.mpr ⟨h3, by omega⟩)
  · have key : ∀ u : Bool, ∀ r ∈ Finset.range 10, ∀ n ∈ Finset.Icc 1 10,
        parseCoordinates (mkCoord u r n) = some ((r : ℤ), (n : ℤ) - 1) ∧
          formatCoordinates (r : ℤ) ((n : ℤ) - 1) = (mkCoord u r n).map upperChar := by decide
    intro u r n h1 h2 h3
    exact ⟨((r : ℤ), (n : ℤ) - 1),
      key u r (Finset.mem_range.mpr h1) n (Finset.mem_Icc.mpr ⟨h2, h3⟩)⟩

/-- Witness for C6 at the concrete cell `(0, 0)` and the concrete string
`"a1"`. -/
theorem claim_C6_witness :
    parseCoordinates (formatCoordinates 0 0) = some (0, 0) ∧
      ∃ cell : Cell, parseCoordinates (mkCoord false 0 1) = some cell ∧
        formatCoordinates cell.1 cell.2 = (mkCoord false 0 1).map upperChar :=
  ⟨(claim_C6).1 0 0 (by decide) (by decide) (by decide) (by decide),
   (claim_C6).2 false 0 1 (by decide) (by decide) (by decide)⟩

theorem validate_ok_val {s : List (Cell × Cell)} {fc : Bool} {r : Bool}
    (h : validateShipPlacement s fc = .ok r) : r = true := by
  unfold validateShipPlacement at h
  cases hg : validateGo ∅ 0 s with
  | error e => rw [hg] at h; exact absurd h (by simp)
  | ok A => rw [hg] at h; split_ifs at h <;> simp_all

/-- C7: whenever `generate_bot_ships` returns a fleet (for any random
stream, start counter and attempt budget), that fleet passes
`validate_ship_placement` with `final_check=True`. -/
theorem claim_C7 (rng : ℕ → ℕ) (k fuel : ℕ) (ships : List (Cell × Cell))
    (h : generateBotShips rng k fuel = some ships) :
    validateShipPlacement ships true = .ok true := by
  induction fuel generalizing k with
  | zero => simp [generateBotShips] at h
  | succ fuel ih =>
    unfold generateBotShips at h
    cases hb : buildFleet rng SHIP_SIZES k [] ∅ ∅ with
    | mk res k' =>
      rw [hb] at h
      cases res with
      | none => exact ih k' h
      | some fl =>
        have h2 : (match validateShipPlacement fl true with
            | Except.ok _ => some fl
            | Except.error _ => generateBotShips rng k' fuel) = some ships := h
        cases hv : validateShipPlacement fl true with
        | error e => rw [hv] at h2; exact ih k' h2
        | ok r =>
          rw [hv] at h2
          simp only [Option.some.injEq] at h2
          subst h2
          exact validate_ok_val hv ▸ hv

set_option maxRecDepth 200000 in
/-- Witness for C7: the deterministic stream `goodRng` makes
`generate_bot_ships` return `goodFleet`, which validates. -/
theorem claim_C7_witness : validateShipPlacement goodFleet true = .ok true :=
  claim_C7 goodRng 0 1000 goodFleet (by decide)

/-- C10: `parse_coordinates` succeeds exactly when, after stripping
surrounding whitespace and uppercasing, the first character is a letter
`A..J` and the remaining suffix parses as a Python integer in `1..10`; in
particular `" a01 "` and `"A+1"` parse to the same cell as the canonical
`"A1"`. -/
theorem claim_C10 :
    (∀ l : List Char,
      (parseCoordinates l).isSome = true ↔
        (match (stripList l).map upperChar with
          | [] => False
          | c :: rest => ('A' ≤ c ∧ c ≤ 'J') ∧ ∃ n : ℤ, pyInt rest = some n ∧ 1 ≤ n ∧ n ≤ 10)) ∧
      parseCoordinates " a01 ".toList = some (0, 0) ∧
      parseCoordinates "A+1".toList = some (0, 0) ∧
      parseCoordinates "A1".toList = some (0, 0) := by
  refine ⟨?_, by decide, by decide, by decide⟩
  intro l
  unfold parseCoordinates
  cases ht : (stripList l).map upperChar with
  | nil => simp [ht]
  | cons c rest =>
    simp only [ht]
    cases rest with
    | nil =>
      simp [show pyInt ([] : List Char) = none from rfl]
    | cons c2 rest2 =>
      simp only [List.length_cons]
      have hlen : ¬(rest2.length + 1 + 1 < 2) := by omega
      rw [if_neg hlen]
      by_cases hc : c < 'A' ∨ 'J' < c
      · rw [if_pos hc]
        simp only [Option.isSome_none, Bool.false_eq_true, false_iff]
        rintro ⟨⟨h1, h2⟩, -⟩
        rcases hc with hc | hc
        · exact absurd h1 (not_le.mpr hc)
        · exact absurd h2 (not_le.mpr hc)
      · rw [if_neg hc]
        push_neg at hc
        obtain ⟨h1, h2⟩ := hc
        cases hp : pyInt (c2 :: rest2) with
        | none => simp
        | some n =>
          by_cases hr : n - 1 < 0 ∨ BOARD_SIZE ≤ n - 1
          · simp only [if_pos hr, Option.isSome_none, Bool.false_eq_true, false_iff]
            rintro ⟨-, m, hm, hm1, hm2⟩
            injection hm with hm
            subst hm
            unfold BOARD_SIZE at hr
            omega
          · simp only [if_neg hr, Option.isSome_some, true_iff]
            unfold BOARD_SIZE at hr
            exact ⟨⟨h1, h2⟩, n, rfl, by omega, by omega⟩

theorem inter_empty_of_union_inter {A B C : Finset Cell} (h : (A ∪ B) ∩ C = ∅) :
    A ∩ C = ∅ ∧ B ∩ C = ∅ := by
  rw [Finset.union_inter_distrib_right, Finset.union_eq_empty] at h
  exact h

/-- A successful run of the placement loop guarantees that the accumulated
cells never meet a later ship or its halo, and that earlier ships neither
share a cell with a later ship nor meet a later ship's halo. -/
theorem validateGo_ok_inv {A : Finset Cell} {i : ℕ} {l : List (Cell × Cell)} {A' : Finset Cell}
    (h : validateGo A i l = .ok A') :
    (∀ p ∈ l, A ∩ (shipCellsD p).toFinset = ∅ ∧ A ∩ getAdjacentCells (shipCellsD p) = ∅) ∧
      l.Pairwise (fun p q =>
        (shipCellsD p).toFinset ∩ (shipCellsD q).toFinset = ∅ ∧
          (shipCellsD p).toFinset ∩ getAdjacentCells (shipCellsD q) = ∅) := by
  induction l generalizing A i with
  | nil => exact ⟨by simp, List.Pairwise.nil⟩
  | cons p rest ih =>
    unfold validateGo at h
    cases hg : getShipCells p.1 p.2 with
    | none => rw [hg] at h; exact absurd h (by simp)
    | some cl =>
      rw [hg] at h
      have h0 : (if cl.toFinset.card ∉ SHIP_SIZES then Except.error (VError.size i)
          else if (A ∩ cl.toFinset).Nonempty then Except.error (VError.overlap i)
          else if (A ∩ getAdjacentCells cl).Nonempty then Except.error (VError.adjacency i)
          else validateGo (A ∪ cl.toFinset) (i + 1) rest) = Except.ok A' := h
      split_ifs at h0 with hsz hov hadj
      obtain ⟨ihmem, ihpw⟩ := ih h0
      have hcl : shipCellsD p = cl := by unfold shipCellsD; rw [hg]; rfl
      constructor
      · intro q hq
        rcases List.mem_cons.mp hq with rfl | hq'
        · rw [hcl]
          exact ⟨Finset.not_nonempty_iff_eq_empty.mp hov,
                 Finset.not_nonempty_iff_eq_empty.mp hadj⟩
        · obtain ⟨hq1, hq2⟩ := ihmem q hq'
          exact ⟨(inter_empty_of_union_inter hq1).1, (inter_empty_of_union_inter hq2).1⟩
      · refine List.Pairwise.cons ?_ ihpw
        intro q hq'
        obtain ⟨hq1, hq2⟩ := ihmem q hq'
        rw [hcl]
        exact ⟨(inter_empty_of_union_inter hq1).2, (inter_empty_of_union_inter hq2).2⟩

/-- C3, counterexample: `badFleet` passes `validate_ship_placement` with
`final_check=True` although its first two ships hold the 8-adjacent cells
`(0, -1)` and `(0, 0)` — the validator never checks board bounds and its
halo only contains in-bounds cells, so an out-of-bounds ship can touch an
in-bounds one undetected. -/
theorem claim_C3_counterexample :
    validateShipPlacement badFleet true = .ok true ∧
      ∃ p ∈ badFleet, ∃ q ∈ badFleet, p ≠ q ∧
        ∃ a ∈ shipCellsD p, ∃ b ∈ shipCellsD q, cellAdjacent a b :=
  ⟨by decide, by decide⟩

/-- C3 (amended): for every ship list all of whose cells lie within board
bounds, a successful `validate_ship_placement` with `final_check=True`
guarantees exactly 10 ships, the required sorted size multiset
`[1,1,1,1,2,2,2,3,3,4]`, and that no two ships share a cell or hold
8-directionally adjacent cells. -/
theorem claim_C3_amended (ships : List (Cell × Cell)) (r : Bool)
    (hval : validateShipPlacement ships true = .ok r)
    (hbounds : ∀ p ∈ ships, ∀ c ∈ shipCellsD p, inBounds c = true) :
    ships.length = 10 ∧
      (ships.map fun p => (shipCellsD p).length).insertionSort (· ≤ ·) =
        [1, 1, 1, 1, 2, 2, 2, 3, 3, 4] ∧
      ships.Pairwise (fun p q =>
        (shipCellsD p).toFinset ∩ (shipCellsD q).toFinset = ∅ ∧
          ∀ a ∈ shipCellsD p, ∀ b ∈ shipCellsD q, ¬cellAdjacent a b) := by
  unfold validateShipPlacement at hval
  cases hg : validateGo ∅ 0 ships with
  | error e => rw [hg] at hval; exact absurd hval (by simp)
  | ok A =>
    rw [hg] at hval
    have hval0 : (if ships.length ≠ SHIP_SIZES.length
          then (Except.error VError.count : Except VError Bool)
        else if (ships.map fun p => (shipCellsD p).length).insertionSort (· ≤ ·) ≠
            SHIP_SIZES.insertionSort (· ≤ ·) then Except.error VError.sizeMismatch
        else Except.ok true) = Except.ok r := hval
    split_ifs at hval0 with h1 h2
    obtain ⟨hmem, hpw⟩ := validateGo_ok_inv hg
    refine ⟨(not_ne_iff.mp h1).trans (by decide), ?_, ?_⟩
    · exact (not_ne_iff.mp h2).trans (by decide)
    · refine List.Pairwise.imp_of_mem ?_ hpw
      intro p q hp hq hpq
      obtain ⟨hd, hh⟩ := hpq
      refine ⟨hd, ?_⟩
      intro a ha b hb hadj
      have hnq : a ∉ shipCellsD q := by
        intro hmem2
        have hx : a ∈ (shipCellsD p).toFinset ∩ (shipCellsD q).toFinset :=
          Finset.mem_inter.mpr ⟨List.mem_toFinset.mpr ha, List.mem_toFinset.mpr hmem2⟩
        rw [hd] at hx
        exact absurd hx (Finset.not_mem_empty a)
      have hain : a ∈ getAdjacentCells (shipCellsD q) :=
        mem_getAdjacentCells_of_adjacent hb hadj (hbounds p hp a ha) hnq
      have hx : a ∈ (shipCellsD p).toFinset ∩ getAdjacentCells (shipCellsD q) :=
        Finset.mem_inter.mpr ⟨List.mem_toFinset.mpr ha, hain⟩
      rw [hh] at hx
      exact absurd hx (Finset.not_mem_empty a)

/-- Witness for C3 (amended) at the concrete in-bounds fleet `goodFleet`. -/
theorem claim_C3_amended_witness :
    goodFleet.length = 10 ∧
      (goodFleet.map fun p => (shipCellsD p).length).insertionSort (· ≤ ·) =
        [1, 1, 1, 1, 2, 2, 2, 3, 3, 4] ∧
      goodFleet.Pairwise (fun p q =>
        (shipCellsD p).toFinset ∩ (shipCellsD q).toFinset = ∅ ∧
          ∀ a ∈ shipCellsD p, ∀ b ∈ shipCellsD q, ¬cellAdjacent a b) :=
  claim_C3_amended goodFleet true (by decide) (by decide)

end Battleship
